import Mathlib

/-!
Shallow embedding of the paper-list editor in `src/yaml_editor.py` and proofs
about its ordering policy, store synchronisation and index management.

Python values appearing in the YAML records are modelled by `PyVal`; a YAML
mapping (a paper record) is an association list with string keys, matching the
string-keyed mappings of the backing file.  Python exceptions are modelled with
`Except PyErr`; machine-level details (Qt widgets, the actual file system) are
abstracted into explicit inputs and outputs of the embedded operations.

Python string builtins (`split`, `strip`, `lower`, `<`) are embedded as
structurally recursive functions over the code-point list `String.data`, which
is how CPython defines them (code-point sequences); this keeps every
definition computable by the kernel.
-/

/-- A Python value as it can occur in a loaded YAML record: `None`, a string,
a number, or a list of strings (e.g. the `tags` field).  Lists of scalars are
all the list values the editor ever stores or reads. -/
inductive PyVal : Type where
  | none : PyVal
  | str : String → PyVal
  | int : Int → PyVal
  | list : List String → PyVal
deriving DecidableEq, Repr

/-- A paper record: a Python dict with string keys, in insertion order. -/
abbrev Record : Type := List (String × PyVal)

/-- `x[k]` lookup on a dict: the value at the first (unique) matching key. -/
def recGet : Record → String → Option PyVal
  | [], _ => Option.none
  | (k, v) :: rest, key => if k = key then some v else recGet rest key

/-- Python `x.get(key, dflt)`. -/
def pyGetD (x : Record) (key : String) (dflt : PyVal) : PyVal :=
  (recGet x key).getD dflt

/-- Python `isinstance(v, str)`. -/
def isStr : PyVal → Bool
  | .str _ => true
  | _ => false

/-- Python hashability: `None`, strings and numbers are hashable, lists are
not.  `dict.get` hashes its key argument and raises `TypeError` on an
unhashable key. -/
def hashable : PyVal → Bool
  | .list _ => false
  | _ => true

/-- The Python exceptions the embedded code can raise. -/
inductive PyErr : Type where
  | typeError : PyErr
  | keyError : PyErr
  | indexError : PyErr
  | stopIteration : PyErr
deriving DecidableEq, Repr

/-! ### Python string builtins over code-point lists -/

/-- The characters Python's `str.strip()` and no-argument `str.split()`
treat as whitespace (the ASCII ones; the editor's data is ASCII-spaced). -/
def isPyWs (c : Char) : Bool :=
  c = ' ' || c = '\t' || c = '\n' || c = '\r' || c.toNat = 11 || c.toNat = 12

/-- Split a code-point list at every occurrence of `c`
(Python `s.split(',')` keeps empty pieces). -/
def splitAtChar (c : Char) : List Char → List (List Char)
  | [] => [[]]
  | x :: xs =>
    match splitAtChar c xs with
    | [] => if x = c then [[], []] else [[x]]
    | y :: ys => if x = c then [] :: y :: ys else (x :: y) :: ys

/-- Python `s.split(',')`. -/
def pySplitComma (s : String) : List String :=
  (splitAtChar ',' s.data).map (fun l => ⟨l⟩)

/-- Split at every whitespace character, keeping empty pieces. -/
def splitAtWs : List Char → List (List Char)
  | [] => [[]]
  | x :: xs =>
    match splitAtWs xs with
    | [] => if isPyWs x then [[], []] else [[x]]
    | y :: ys => if isPyWs x then [] :: y :: ys else (x :: y) :: ys

/-- Python `s.split()` with no separator: split on whitespace runs, dropping
empty pieces. -/
def pySplitWs (s : String) : List String :=
  ((splitAtWs s.data).filter (fun l => l ≠ [])).map (fun l => ⟨l⟩)

/-- Python `s.strip()`: drop leading and trailing whitespace. -/
def pyStrip (s : String) : String :=
  ⟨((s.data.dropWhile isPyWs).reverse.dropWhile isPyWs).reverse⟩

/-- Python `s.lower()` (ASCII case mapping; the mapping on letters is all the
embedded code relies on). -/
def pyLower (s : String) : String :=
  ⟨s.data.map Char.toLower⟩

/-- Python `<` on strings: lexicographic comparison of code points. -/
def strLtL : List Char → List Char → Bool
  | [], [] => false
  | [], _ :: _ => true
  | _ :: _, [] => false
  | a :: as, b :: bs =>
    if a.toNat = b.toNat then strLtL as bs else decide (a.toNat < b.toNat)

def pyStrLt (a b : String) : Bool := strLtL a.data b.data

/-! ### `YAMLEditor.safe_sort_key` -/

/-- The sort key produced by `YAMLEditor.safe_sort_key` (lines 53-82):
`(pub_date, source_priority, last_name, title)`. -/
abbrev SortKey : Type := String × Nat × String × String

/-- Lines 55-58: `pub_date = x.get('publication_date', '9999')`, replaced by
`'9999'` again when not a string. -/
def pub_date_of (x : Record) : String :=
  match pyGetD x "publication_date" (.str "9999") with
  | .str s => s
  | _ => "9999"

/-- Lines 60-69: last name of the first author.  `authors` defaults to `''`;
a falsy or non-string value gives `'z'`; otherwise the first comma-separated
piece is stripped, and its final whitespace-separated token is lower-cased
(`'z'` when the stripped piece is empty, and the `try`/`except` turns any
error from the `[-1]` indexing into `'z'`). -/
def last_name_of (x : Record) : String :=
  match pyGetD x "authors" (.str "") with
  | .str s =>
    if s = "" then "z"
    else
      let first_author := pyStrip ((pySplitComma s).headD "")
      if first_author = "" then "z"
      else
        match (pySplitWs first_author).getLast? with
        | some t => pyLower t
        | Option.none => "z"
  | _ => "z"

/-- Lines 71-76: `title = x.get('title', '')`; a non-string value becomes
`'z'`, a string is lower-cased.  (A missing title therefore yields `''`, the
lower-cased default, not `'z'`.) -/
def title_of (x : Record) : String :=
  match pyGetD x "title" (.str "") with
  | .str s => pyLower s
  | _ => "z"

/-- Line 82: `{'arxiv': 0, 'estimated': 1, 'unknown': 2}.get(date_source, 2)`.
`dict.get` hashes its key, so an unhashable `date_source` value raises
`TypeError`. -/
def dictGetPrio (v : PyVal) : Except PyErr Nat :=
  if hashable v then
    .ok (if v = .str "arxiv" then 0 else if v = .str "estimated" then 1 else 2)
  else .error .typeError

/-- `YAMLEditor.safe_sort_key` (lines 53-82).  The only uncaught exception
point is the `source_priority.get` call on an unhashable `date_source`. -/
def safe_sort_key (x : Record) : Except PyErr SortKey :=
  match dictGetPrio (pyGetD x "date_source" (.str "unknown")) with
  | .error e => .error e
  | .ok p => .ok (pub_date_of x, p, last_name_of x, title_of x)

/-! ### Python tuple comparison and `list.sort(key=..., reverse=True)` -/

/-- Lexicographic combination of two strict comparisons, exactly Python's
tuple comparison step: equal first components defer to the rest. -/
def lexPairLt {α β : Type} [DecidableEq α]
    (ltA : α → α → Bool) (ltB : β → β → Bool) (x y : α × β) : Bool :=
  if x.1 = y.1 then ltB x.2 y.2 else ltA x.1 y.1

def natLtB (m n : Nat) : Bool := decide (m < n)

/-- Python `<` on sort-key tuples. -/
def tupLtB : SortKey → SortKey → Bool :=
  lexPairLt pyStrLt (lexPairLt natLtB (lexPairLt pyStrLt pyStrLt))

/-! ### Order facts about the comparisons -/

theorem char_eq_of_toNat {a b : Char} (h : a.toNat = b.toNat) : a = b :=
  Char.ext (UInt32.ext h)

theorem strLtL_irrefl : ∀ l, strLtL l l = false
  | [] => rfl
  | a :: as => by simp [strLtL, strLtL_irrefl as]

theorem strLtL_asymm : ∀ (l m : List Char), strLtL l m = true → strLtL m l = false
  | [], [], h => by simp [strLtL] at h
  | [], _ :: _, _ => rfl
  | _ :: _, [], h => by simp [strLtL] at h
  | a :: as, b :: bs, h => by
    by_cases hab : a.toNat = b.toNat
    · rw [strLtL, if_pos hab] at h
      rw [strLtL, if_pos hab.symm]
      exact strLtL_asymm as bs h
    · rw [strLtL, if_neg hab] at h
      rw [strLtL, if_neg (Ne.symm hab)]
      simp only [decide_eq_true_eq] at h
      simp only [decide_eq_false_iff_not]
      omega

theorem strLtL_trans :
    ∀ (l m n : List Char), strLtL l m = true → strLtL m n = true → strLtL l n = true
  | [], [], _, h1, _ => by simp [strLtL] at h1
  | [], _ :: _, [], _, h2 => by simp [strLtL] at h2
  | [], _ :: _, _ :: _, _, _ => rfl
  | _ :: _, [], _, h1, _ => by simp [strLtL] at h1
  | _ :: _, _ :: _, [], _, h2 => by simp [strLtL] at h2
  | a :: as, b :: bs, c :: cs, h1, h2 => by
    rw [strLtL] at h1 h2 ⊢
    by_cases hab : a.toNat = b.toNat <;> by_cases hbc : b.toNat = c.toNat
    · rw [if_pos hab] at h1
      rw [if_pos hbc] at h2
      rw [if_pos (hab.trans hbc)]
      exact strLtL_trans as bs cs h1 h2
    · rw [if_pos hab] at h1
      rw [if_neg hbc] at h2
      rw [if_neg (hab ▸ hbc), hab]
      exact h2
    · rw [if_neg hab] at h1
      rw [if_pos hbc] at h2
      rw [if_neg (hbc ▸ hab), ← hbc]
      exact h1
    · rw [if_neg hab] at h1
      rw [if_neg hbc] at h2
      simp only [decide_eq_true_eq] at h1 h2 ⊢
      rw [if_neg (by omega : ¬ a.toNat = c.toNat)]
      simp only [decide_eq_true_eq]
      omega

theorem strLtL_eq_of_not :
    ∀ (l m : List Char), strLtL l m = false → strLtL m l = false → l = m
  | [], [], _, _ => rfl
  | [], _ :: _, h1, _ => by simp [strLtL] at h1
  | _ :: _, [], _, h2 => by simp [strLtL] at h2
  | a :: as, b :: bs, h1, h2 => by
    by_cases hab : a.toNat = b.toNat
    · obtain rfl : a = b := char_eq_of_toNat hab
      rw [strLtL, if_pos rfl] at h1 h2
      rw [strLtL_eq_of_not as bs h1 h2]
    · rw [strLtL, if_neg hab] at h1
      rw [strLtL, if_neg (Ne.symm hab)] at h2
      simp only [decide_eq_false_iff_not] at h1 h2
      omega

theorem pyStrLt_irrefl (s : String) : pyStrLt s s = false := strLtL_irrefl _

theorem pyStrLt_asymm (a b : String) (h : pyStrLt a b = true) : pyStrLt b a = false :=
  strLtL_asymm _ _ h

theorem pyStrLt_trans (a b c : String) (h1 : pyStrLt a b = true) (h2 : pyStrLt b c = true) :
    pyStrLt a c = true :=
  strLtL_trans _ _ _ h1 h2

theorem pyStrLt_eq_of_not (a b : String) (h1 : pyStrLt a b = false)
    (h2 : pyStrLt b a = false) : a = b := by
  cases a with
  | mk da =>
    cases b with
    | mk db => exact congrArg String.mk (strLtL_eq_of_not da db h1 h2)

theorem natLtB_irrefl (n : Nat) : natLtB n n = false := by simp [natLtB]

theorem natLtB_asymm (m n : Nat) (h : natLtB m n = true) : natLtB n m = false := by
  simp [natLtB] at h ⊢; omega

theorem natLtB_trans (m n p : Nat) (h1 : natLtB m n = true) (h2 : natLtB n p = true) :
    natLtB m p = true := by
  simp [natLtB] at h1 h2 ⊢; omega

theorem natLtB_eq_of_not (m n : Nat) (h1 : natLtB m n = false) (h2 : natLtB n m = false) :
    m = n := by
  simp [natLtB] at h1 h2; omega

theorem lexPairLt_irrefl {α β : Type} [DecidableEq α]
    (ltA : α → α → Bool) (ltB : β → β → Bool)
    (hB : ∀ b, ltB b b = false) (x : α × β) : lexPairLt ltA ltB x x = false := by
  simp [lexPairLt, hB]

theorem lexPairLt_asymm {α β : Type} [DecidableEq α]
    (ltA : α → α → Bool) (ltB : β → β → Bool)
    (hA : ∀ a b, ltA a b = true → ltA b a = false)
    (hB : ∀ a b, ltB a b = true → ltB b a = false)
    (x y : α × β) (h : lexPairLt ltA ltB x y = true) : lexPairLt ltA ltB y x = false := by
  by_cases hxy : x.1 = y.1
  · rw [lexPairLt, if_pos hxy] at h
    rw [lexPairLt, if_pos hxy.symm]
    exact hB _ _ h
  · rw [lexPairLt, if_neg hxy] at h
    rw [lexPairLt, if_neg (Ne.symm hxy)]
    exact hA _ _ h

theorem lexPairLt_trans {α β : Type} [DecidableEq α]
    (ltA : α → α → Bool) (ltB : β → β → Bool)
    (hAt : ∀ a b c, ltA a b = true → ltA b c = true → ltA a c = true)
    (hAa : ∀ a b, ltA a b = true → ltA b a = false)
    (hBt : ∀ a b c, ltB a b = true → ltB b c = true → ltB a c = true)
    (x y z : α × β) (h1 : lexPairLt ltA ltB x y = true)
    (h2 : lexPairLt ltA ltB y z = true) : lexPairLt ltA ltB x z = true := by
  by_cases hxy : x.1 = y.1 <;> by_cases hyz : y.1 = z.1
  · rw [lexPairLt, if_pos hxy] at h1
    rw [lexPairLt, if_pos hyz] at h2
    rw [lexPairLt, if_pos (hxy.trans hyz)]
    exact hBt _ _ _ h1 h2
  · rw [lexPairLt, if_pos hxy] at h1
    rw [lexPairLt, if_neg hyz] at h2
    rw [lexPairLt, if_neg (hxy ▸ hyz), hxy]
    exact h2
  · rw [lexPairLt, if_neg hxy] at h1
    rw [lexPairLt, if_pos hyz] at h2
    rw [lexPairLt, if_neg (hyz ▸ hxy), ← hyz]
    exact h1
  · rw [lexPairLt, if_neg hxy] at h1
    rw [lexPairLt, if_neg hyz] at h2
    have hxz : x.1 ≠ z.1 := by
      intro he
      rw [he] at h1
      simp [hAa _ _ h2] at h1
    rw [lexPairLt, if_neg hxz]
    exact hAt _ _ _ h1 h2

theorem lexPairLt_eq_of_not {α β : Type} [DecidableEq α]
    (ltA : α → α → Bool) (ltB : β → β → Bool)
    (hAe : ∀ a b, ltA a b = false → ltA b a = false → a = b)
    (hBe : ∀ a b, ltB a b = false → ltB b a = false → a = b)
    (x y : α × β) (h1 : lexPairLt ltA ltB x y = false)
    (h2 : lexPairLt ltA ltB y x = false) : x = y := by
  by_cases hxy : x.1 = y.1
  · rw [lexPairLt, if_pos hxy] at h1
    rw [lexPairLt, if_pos hxy.symm] at h2
    exact Prod.ext hxy (hBe _ _ h1 h2)
  · rw [lexPairLt, if_neg hxy] at h1
    rw [lexPairLt, if_neg (Ne.symm hxy)] at h2
    exact absurd (hAe _ _ h1 h2) hxy

theorem tupLtB_irrefl (k : SortKey) : tupLtB k k = false :=
  lexPairLt_irrefl _ _
    (fun b => lexPairLt_irrefl _ _
      (fun c => lexPairLt_irrefl _ _ pyStrLt_irrefl c) b) k

theorem tupLtB_asymm (k₁ k₂ : SortKey) (h : tupLtB k₁ k₂ = true) : tupLtB k₂ k₁ = false :=
  lexPairLt_asymm _ _ pyStrLt_asymm
    (lexPairLt_asymm _ _ natLtB_asymm
      (lexPairLt_asymm _ _ pyStrLt_asymm pyStrLt_asymm)) k₁ k₂ h

theorem tupLtB_trans (k₁ k₂ k₃ : SortKey) (h1 : tupLtB k₁ k₂ = true)
    (h2 : tupLtB k₂ k₃ = true) : tupLtB k₁ k₃ = true :=
  lexPairLt_trans _ _ pyStrLt_trans pyStrLt_asymm
    (lexPairLt_trans _ _ natLtB_trans natLtB_asymm
      (lexPairLt_trans _ _ pyStrLt_trans pyStrLt_asymm pyStrLt_trans)) k₁ k₂ k₃ h1 h2

theorem tupLtB_eq_of_not (k₁ k₂ : SortKey) (h1 : tupLtB k₁ k₂ = false)
    (h2 : tupLtB k₂ k₁ = false) : k₁ = k₂ :=
  lexPairLt_eq_of_not _ _ pyStrLt_eq_of_not
    (lexPairLt_eq_of_not _ _ natLtB_eq_of_not
      (lexPairLt_eq_of_not _ _ pyStrLt_eq_of_not pyStrLt_eq_of_not)) k₁ k₂ h1 h2

/-- The relation under which Python's stable `list.sort(key=f, reverse=True)`
arranges the list: `a` may stay before `b` iff `key a ≥ key b`; ties keep
their original relative order. -/
def keyGeBy (f : Record → SortKey) (a b : Record) : Prop := tupLtB (f a) (f b) = false

instance (f : Record → SortKey) : DecidableRel (keyGeBy f) := fun a b =>
  inferInstanceAs (Decidable (tupLtB (f a) (f b) = false))

instance (f : Record → SortKey) : IsTotal Record (keyGeBy f) :=
  ⟨fun a b => by
    by_cases h : tupLtB (f a) (f b) = true
    · exact Or.inr (tupLtB_asymm _ _ h)
    · exact Or.inl (by simpa using h)⟩

instance (f : Record → SortKey) : IsTrans Record (keyGeBy f) :=
  ⟨fun a b c hab hbc => by
    unfold keyGeBy at hab hbc ⊢
    by_cases e1 : tupLtB (f b) (f a) = true
    · by_cases e2 : tupLtB (f c) (f b) = true
      · exact tupLtB_asymm _ _ (tupLtB_trans _ _ _ e2 e1)
      · rw [← tupLtB_eq_of_not (f b) (f c) hbc (by simpa using e2)]
        exact hab
    · rw [tupLtB_eq_of_not (f a) (f b) hab (by simpa using e1)]
      exact hbc⟩

/-- `list.sort(key=f, reverse=True)` for a total key function: a stable
descending sort.  Insertion sort with `keyGeBy f` is stable and orders the
list descending by key, which is exactly CPython's behaviour. -/
def sortDescBy (f : Record → SortKey) (l : List Record) : List Record :=
  List.insertionSort (keyGeBy f) l

theorem mem_sortDescBy {f : Record → SortKey} {l : List Record} {x : Record} :
    x ∈ sortDescBy f l ↔ x ∈ l :=
  List.mem_insertionSort _

/-- In the descending-sorted list, a record with a strictly smaller key sits
strictly after any record with a strictly larger key. -/
theorem sorted_key_lt_after (f : Record → SortKey) (l : List Record) (x y : Record)
    (hxy : tupLtB (f x) (f y) = true) (hne : x ≠ y)
    (i j : Fin (sortDescBy f l).length)
    (hx : (sortDescBy f l).get i = x) (hy : (sortDescBy f l).get j = y) :
    (j : Nat) < (i : Nat) := by
  have hsort : List.Sorted (keyGeBy f) (sortDescBy f l) :=
    List.sorted_insertionSort _ _
  rcases Nat.lt_trichotomy (i : Nat) (j : Nat) with h | h | h
  · exfalso
    have hp := List.pairwise_iff_get.mp hsort i j (Fin.lt_def.mpr h)
    rw [hx, hy] at hp
    rw [keyGeBy, hxy] at hp
    cases hp
  · exfalso
    apply hne
    have hij : i = j := Fin.ext h
    rw [← hx, ← hy, hij]
  · exact h

/-- The key actually used to order records once `safe_sort_key` is known not
to raise; the fallback tuple is never used on lists that sort successfully. -/
def sortKeyD (x : Record) : SortKey :=
  (safe_sort_key x).toOption.getD ("", 0, "", "")

/-- The first key-computation error raised while sorting, if any. -/
def firstKeyErr (l : List Record) : Option PyErr :=
  l.findSome? (fun r =>
    match safe_sort_key r with
    | .error e => some e
    | .ok _ => Option.none)

/-- Line 95: `self.data.sort(key=self.safe_sort_key, reverse=True)`.
Python's sort evaluates the key on every element (raising if the key
raises), then orders the list stably by descending key. -/
def pySort (l : List Record) : Except PyErr (List Record) :=
  match firstKeyErr l with
  | some e => .error e
  | Option.none => .ok (sortDescBy sortKeyD l)

theorem pySort_ok {l m : List Record} (h : pySort l = .ok m) :
    m = sortDescBy sortKeyD l ∧ ∀ r ∈ l, ∃ k, safe_sort_key r = .ok k := by
  unfold pySort at h
  cases he : firstKeyErr l with
  | some e => rw [he] at h; cases h
  | none =>
    rw [he] at h
    cases h
    refine ⟨rfl, fun r hr => ?_⟩
    have := List.findSome?_eq_none_iff.mp he r hr
    cases hk : safe_sort_key r with
    | error e => rw [hk] at this; cases this
    | ok k => exact ⟨k, rfl⟩

theorem safe_sort_key_ok_parts {x : Record} {k : SortKey}
    (h : safe_sort_key x = .ok k) :
    k.1 = pub_date_of x ∧ k.2.2.1 = last_name_of x ∧ k.2.2.2 = title_of x := by
  unfold safe_sort_key at h
  cases hd : dictGetPrio (pyGetD x "date_source" (.str "unknown")) with
  | error e => rw [hd] at h; cases h
  | ok p => rw [hd] at h; cases h; exact ⟨rfl, rfl, rfl⟩

theorem sortKeyD_of_ok {x : Record} {k : SortKey} (h : safe_sort_key x = .ok k) :
    sortKeyD x = k := by
  simp [sortKeyD, h, Except.toOption]

theorem pub_date_of_some_str {x : Record} {s : String}
    (h : recGet x "publication_date" = some (.str s)) : pub_date_of x = s := by
  simp [pub_date_of, pyGetD, h]

theorem pub_date_of_missing {x : Record}
    (h : recGet x "publication_date" = Option.none) : pub_date_of x = "9999" := by
  simp [pub_date_of, pyGetD, h]

/-! ### Claim C1 -/

def recA : Record := [("id", .str "a"), ("publication_date", .str "2023-05-01")]

def recB : Record := [("id", .str "b")]

/-- C1, as stated, is false: loading sorts with `reverse=True`, so record B
(missing `publication_date`, sentinel key `"9999"`) is placed *before*
record A (dated `"2023-05-01"`), because `"9999"` is the lexicographically
largest key and the sort is descending.  Concretely, sorting `[A, B]`
yields `[B, A]`, not `[A, B]`. -/
theorem c1_counterexample : pySort [recA, recB] = .ok [recB, recA] := by rfl

/-- C1 (amended): for every successfully sorted list containing a record A
with `publication_date` `"2023-05-01"` and a record B with no
`publication_date`, the Ordering Policy places B strictly *before* A:
missing-date records, keyed by the sentinel `"9999"`, sort first under the
descending/newest-first comparison. -/
theorem c1_missing_date_sorts_first
    (l m : List Record) (rA rB : Record)
    (hA : recGet rA "publication_date" = some (.str "2023-05-01"))
    (hB : recGet rB "publication_date" = Option.none)
    (hs : pySort l = .ok m)
    (i j : Fin m.length) (hgi : m.get i = rA) (hgj : m.get j = rB) :
    (j : Nat) < (i : Nat) := by
  obtain ⟨hm, hok⟩ := pySort_ok hs
  subst hm
  have hmemA : rA ∈ l := mem_sortDescBy.mp (List.mem_iff_get.mpr ⟨i, hgi⟩)
  have hmemB : rB ∈ l := mem_sortDescBy.mp (List.mem_iff_get.mpr ⟨j, hgj⟩)
  obtain ⟨kA, hkA⟩ := hok rA hmemA
  obtain ⟨kB, hkB⟩ := hok rB hmemB
  have h1 : kA.1 = "2023-05-01" := by
    rw [(safe_sort_key_ok_parts hkA).1]
    exact pub_date_of_some_str hA
  have h2 : kB.1 = "9999" := by
    rw [(safe_sort_key_ok_parts hkB).1]
    exact pub_date_of_missing hB
  have hlt : tupLtB (sortKeyD rA) (sortKeyD rB) = true := by
    rw [sortKeyD_of_ok hkA, sortKeyD_of_ok hkB]
    show lexPairLt pyStrLt _ kA kB = true
    rw [lexPairLt, if_neg (by rw [h1, h2]; decide), h1, h2]
    decide
  have hne : rA ≠ rB := by
    intro he
    rw [he, hB] at hA
    cases hA
  exact sorted_key_lt_after sortKeyD l rA rB hlt hne i j hgi hgj

/-- Witness for C1 (amended): the concrete two-record list of the claim
scenario, where B lands at index 0 and A at index 1 after sorting. -/
theorem c1_missing_date_sorts_first_witness :
    recGet recA "publication_date" = some (.str "2023-05-01")
    ∧ recGet recB "publication_date" = Option.none
    ∧ (0 : Nat) < 1 :=
  ⟨rfl, rfl,
    c1_missing_date_sorts_first [recA, recB] [recB, recA] recA recB rfl rfl
      (by rfl) ⟨1, by decide⟩ ⟨0, by decide⟩ (by rfl) (by rfl)⟩

/-! ### Claim C2 -/

def recArx : Record :=
  [("id", .str "x"), ("publication_date", .str "2024-01-02"), ("date_source", .str "arxiv")]

def recEst : Record :=
  [("id", .str "y"), ("publication_date", .str "2024-01-02"), ("date_source", .str "estimated")]

/-- C2, as stated, is false: with identical dates, `reverse=True` inverts
the `date_source` priority tie-break, so the `estimated` record (priority 1)
sorts *before* the `arxiv` record (priority 0).  Concretely, sorting
`[arxiv-record, estimated-record]` yields the estimated record first. -/
theorem c2_counterexample : pySort [recArx, recEst] = .ok [recEst, recArx] := by rfl

/-- C2 (amended): for every successfully sorted list containing two records
with identical `publication_date`, one sourced `arxiv` and one `estimated`,
the newest-first sort places the `estimated` record strictly before the
`arxiv` one: the reverse sort makes the *higher* priority value win within
equal dates. -/
theorem c2_estimated_sorts_before_arxiv
    (l m : List Record) (rX rY : Record)
    (hd : recGet rX "publication_date" = recGet rY "publication_date")
    (hX : recGet rX "date_source" = some (.str "arxiv"))
    (hY : recGet rY "date_source" = some (.str "estimated"))
    (hs : pySort l = .ok m)
    (i j : Fin m.length) (hgi : m.get i = rX) (hgj : m.get j = rY) :
    (j : Nat) < (i : Nat) := by
  obtain ⟨hm, _⟩ := pySort_ok hs
  subst hm
  have hkX : safe_sort_key rX = .ok (pub_date_of rX, 0, last_name_of rX, title_of rX) := by
    unfold safe_sort_key
    rw [show pyGetD rX "date_source" (.str "unknown") = .str "arxiv" by simp [pyGetD, hX]]
    rfl
  have hkY : safe_sort_key rY = .ok (pub_date_of rY, 1, last_name_of rY, title_of rY) := by
    unfold safe_sort_key
    rw [show pyGetD rY "date_source" (.str "unknown") = .str "estimated" by simp [pyGetD, hY]]
    rfl
  have hpd : pub_date_of rX = pub_date_of rY := by
    rw [pub_date_of, pub_date_of, pyGetD, pyGetD, hd]
  have hlt : tupLtB (sortKeyD rX) (sortKeyD rY) = true := by
    rw [sortKeyD_of_ok hkX, sortKeyD_of_ok hkY, hpd]
    simp [tupLtB, lexPairLt, natLtB]
  have hne : rX ≠ rY := by
    intro he
    rw [he, hY] at hX
    exact absurd hX (by decide)
  exact sorted_key_lt_after sortKeyD l rX rY hlt hne i j hgi hgj

/-- Witness for C2 (amended): the concrete pair of same-date records; the
estimated one lands at index 0, the arxiv one at index 1. -/
theorem c2_estimated_sorts_before_arxiv_witness :
    recGet recArx "date_source" = some (.str "arxiv")
    ∧ recGet recEst "date_source" = some (.str "estimated")
    ∧ (0 : Nat) < 1 :=
  ⟨rfl, rfl,
    c2_estimated_sorts_before_arxiv [recArx, recEst] [recEst, recArx] recArx recEst
      rfl rfl rfl (by rfl) ⟨1, by decide⟩ ⟨0, by decide⟩ (by rfl) (by rfl)⟩

/-! ### Claim C4 -/

theorem pub_date_of_nonstr {x : Record} {v : PyVal}
    (h : recGet x "publication_date" = some v) (hv : isStr v = false) :
    pub_date_of x = "9999" := by
  cases v <;> simp_all [pub_date_of, pyGetD, isStr]

theorem last_name_of_missing {x : Record} (h : recGet x "authors" = Option.none) :
    last_name_of x = "z" := by
  simp [last_name_of, pyGetD, h]

theorem last_name_of_nonstr {x : Record} {v : PyVal}
    (h : recGet x "authors" = some v) (hv : isStr v = false) :
    last_name_of x = "z" := by
  cases v <;> simp_all [last_name_of, pyGetD, isStr]

theorem title_of_missing {x : Record} (h : recGet x "title" = Option.none) :
    title_of x = "" := by
  simp [title_of, pyGetD, h]
  rfl

theorem title_of_nonstr {x : Record} {v : PyVal}
    (h : recGet x "title" = some v) (hv : isStr v = false) :
    title_of x = "z" := by
  cases v <;> simp_all [title_of, pyGetD, isStr]

/-- C4, as stated ("for every record mapping ... rather than raising"), is
false: `source_priority.get(date_source, 2)` hashes its key, so a record
whose `date_source` holds an unhashable value (a list, as YAML can produce)
makes `safe_sort_key` raise `TypeError`. -/
theorem c4_counterexample :
    safe_sort_key [("date_source", PyVal.list [])] = .error .typeError := by rfl

/-- C4 (amended): `safe_sort_key` is total and sentinel-substituting for
every record whose `date_source` value is hashable (in particular for every
record with missing or non-string/None `publication_date`, `authors` or
`title`); only an unhashable `date_source` makes it raise.  The sentinels
are the ones the code actually produces: `"9999"` for the date, `"z"` for
the author component, `"z"` for a present non-string title, and `""` for a
missing title. -/
theorem c4_key_total_when_hashable (x : Record)
    (h : hashable (pyGetD x "date_source" (.str "unknown")) = true) :
    ∃ k, safe_sort_key x = .ok k
      ∧ (recGet x "publication_date" = Option.none → k.1 = "9999")
      ∧ (∀ v, recGet x "publication_date" = some v → isStr v = false → k.1 = "9999")
      ∧ (recGet x "authors" = Option.none → k.2.2.1 = "z")
      ∧ (∀ v, recGet x "authors" = some v → isStr v = false → k.2.2.1 = "z")
      ∧ (recGet x "title" = Option.none → k.2.2.2 = "")
      ∧ (∀ v, recGet x "title" = some v → isStr v = false → k.2.2.2 = "z") := by
  refine ⟨(pub_date_of x,
      if pyGetD x "date_source" (.str "unknown") = .str "arxiv" then 0
      else if pyGetD x "date_source" (.str "unknown") = .str "estimated" then 1 else 2,
      last_name_of x, title_of x), ?_, ?_, ?_, ?_, ?_, ?_, ?_⟩
  · unfold safe_sort_key dictGetPrio
    rw [if_pos h]
  · exact fun hm => pub_date_of_missing hm
  · exact fun v hv hs => pub_date_of_nonstr hv hs
  · exact fun hm => last_name_of_missing hm
  · exact fun v hv hs => last_name_of_nonstr hv hs
  · exact fun hm => title_of_missing hm
  · exact fun v hv hs => title_of_nonstr hv hs

/-- Witness for C4 (amended): the empty record has a hashable (defaulted)
`date_source` and all three fields missing. -/
theorem c4_key_total_when_hashable_witness :
    ∃ k, safe_sort_key ([] : Record) = .ok k
      ∧ (recGet ([] : Record) "publication_date" = Option.none → k.1 = "9999")
      ∧ (∀ v, recGet ([] : Record) "publication_date" = some v → isStr v = false → k.1 = "9999")
      ∧ (recGet ([] : Record) "authors" = Option.none → k.2.2.1 = "z")
      ∧ (∀ v, recGet ([] : Record) "authors" = some v → isStr v = false → k.2.2.1 = "z")
      ∧ (recGet ([] : Record) "title" = Option.none → k.2.2.2 = "")
      ∧ (∀ v, recGet ([] : Record) "title" = some v → isStr v = false → k.2.2.2 = "z") :=
  c4_key_total_when_hashable [] (by rfl)

/-! ### Claim C5 -/

/-- C5: a record with *no* `title` key gets `''` as its title key component,
not the `'z'` sentinel — `x.get('title', '')` returns the string default,
which is then lower-cased, even though the code's own comment announces
"default to 'z' for sorting".  Only a present non-string title yields `'z'`. -/
theorem c5_missing_title_component :
    safe_sort_key [("id", PyVal.str "p7")] = .ok ("9999", 2, "z", "")
    ∧ ("" : String) ≠ "z"
    ∧ title_of [("id", PyVal.str "p7")] = ""
    ∧ title_of [("id", PyVal.str "p7"), ("title", PyVal.none)] = "z"
    ∧ title_of [("id", PyVal.str "p7"), ("title", PyVal.str "GS Review")] = "gs review" :=
  ⟨by rfl, by decide, by rfl, by rfl, by decide⟩
/-! ### Claim C3: the `auto_save` field write-back (lines 253-282) -/

/-- The editable basic fields of `setup_ui` (line 186), in the insertion
order of the `self.fields` dict. -/
def basic_fields : List String := ["id", "title", "authors", "year", "publication_date"]

/-- The URL fields of `setup_ui` (line 204), in insertion order. -/
def url_fields : List String := ["project_page", "paper", "code", "video"]

/-- Lines 264-265 and 271-272: a widget text that is empty after `strip()`
is stored as `None`, any other text as itself. -/
def normEmpty (s : String) : PyVal :=
  if pyStrip s = "" then PyVal.none else PyVal.str s

/-- Python dict assignment `entry[k] = v`: overwrite the value at an
existing key in place, or append a new key. -/
def recSet : Record → String → PyVal → Record
  | [], k, v => [(k, v)]
  | (k1, w) :: rest, k, v =>
    if k1 = k then (k, v) :: rest else (k1, w) :: recSet rest k v

/-- Python `sorted()` on a list of strings: stable ascending sort by the
code-point order. -/
def sortedStrings (l : List String) : List String :=
  List.insertionSort (fun a b => pyStrLt b a = false) l

/-- Lines 255-276 of `auto_save`: overwrite every basic field (including
`id`; the dict iterates `id, title, authors, year, publication_date`, then
`abstract`), every URL field, and `tags` with the sorted checked tags.
`fieldText`/`urlText` give each widget's current text.  The subsequent
`if 'publication_date' not in entry` check (line 279) can never fire, since
the loop has just written that key. -/
def auto_save_update (entry : Record) (fieldText : String → String)
    (urlText : String → String) (checkedTags : List String) : Record :=
  let e1 := (basic_fields ++ ["abstract"]).foldl
    (fun e f => recSet e f (normEmpty (fieldText f))) entry
  let e2 := url_fields.foldl (fun e f => recSet e f (normEmpty (urlText f))) e1
  recSet e2 "tags" (PyVal.list (sortedStrings checkedTags))

theorem recGet_recSet_self : ∀ (r : Record) (k : String) (v : PyVal),
    recGet (recSet r k v) k = some v
  | [], k, v => by simp [recSet, recGet]
  | (k1, w) :: rest, k, v => by
    by_cases h : k1 = k
    · rw [recSet, if_pos h, recGet, if_pos rfl]
    · rw [recSet, if_neg h, recGet, if_neg h]
      exact recGet_recSet_self rest k v

theorem recGet_recSet_ne : ∀ (r : Record) {k1 k2 : String}, k1 ≠ k2 → ∀ (v : PyVal),
    recGet (recSet r k1 v) k2 = recGet r k2
  | [], k1, k2, h, v => by simp [recSet, recGet, h]
  | (ka, w) :: rest, k1, k2, h, v => by
    by_cases ha : ka = k1
    · rw [recSet, if_pos ha, recGet, if_neg h, recGet, if_neg (ha ▸ h)]
    · rw [recSet, if_neg ha, recGet, recGet]
      by_cases hb : ka = k2
      · rw [if_pos hb, if_pos hb]
      · rw [if_neg hb, if_neg hb]
        exact recGet_recSet_ne rest h v

def c3entry : Record := [("id", .str "paper-1"), ("title", .str "Old Title")]

/-- C3, as stated, is false: the `id` widget is an editable `QLineEdit`
wired to `auto_save` (only `publication_date` is read-only), and
`auto_save` writes `entry[field] = value` for *every* field in
`self.fields`, `id` included.  Editing the id box to `paper-2` overwrites
the record's id. -/
theorem c3_counterexample :
    recGet c3entry "id" = some (PyVal.str "paper-1")
    ∧ recGet (auto_save_update c3entry
        (fun f => if f = "id" then "paper-2" else "t") (fun _ => "") []) "id"
      = some (PyVal.str "paper-2") :=
  ⟨by rfl, by rfl⟩

/-- C3 (amended): `auto_save` overwrites the `id` field of the current
record with the id widget's current text (normalised: blank text becomes
`None`); since the id widget is editable and autosaves on change, a
record's id *can* change after creation. -/
theorem c3_auto_save_overwrites_id (entry : Record)
    (fieldText urlText : String → String) (checkedTags : List String) :
    recGet (auto_save_update entry fieldText urlText checkedTags) "id"
      = some (normEmpty (fieldText "id")) := by
  unfold auto_save_update basic_fields url_fields
  simp only [List.cons_append, List.nil_append, List.foldl_cons, List.foldl_nil]
  rw [recGet_recSet_ne _ (by decide) _, recGet_recSet_ne _ (by decide) _,
    recGet_recSet_ne _ (by decide) _, recGet_recSet_ne _ (by decide) _,
    recGet_recSet_ne _ (by decide) _, recGet_recSet_ne _ (by decide) _,
    recGet_recSet_ne _ (by decide) _, recGet_recSet_ne _ (by decide) _,
    recGet_recSet_ne _ (by decide) _, recGet_recSet_ne _ (by decide) _,
    recGet_recSet_self]

/-! ### Claims C6 and C9: re-locating the current record by id -/

/-- The generator scan
`next(i for i, e in enumerate(lst) if e['id'] == target)` used by
`auto_save` (line 290), `refresh_ui` (line 495) and `show_arxiv_dialog`:
walks from index 0; a record without an `id` key raises `KeyError`; no
match at all raises `StopIteration`. -/
def findIdxById : List Record → PyVal → Except PyErr Nat
  | [], _ => .error .stopIteration
  | e :: rest, v =>
    match recGet e "id" with
    | Option.none => .error .keyError
    | some w => if w = v then .ok 0 else (findIdxById rest v).map (· + 1)

/-- Modelled from the spec: `YAMLUpdater.safe_sort_key`, imported from
`src/fix_date.py`, is not part of the source snapshot (only its caller
`yaml_editor.py` is).  Spec section 4.1 defines the Ordering Policy key it
must compute: publication date with sentinel `"9999"` for missing or
non-string values; `date_source` priority `arxiv` 0, `estimated` 1,
anything else 2; lower-cased last name of the first author with sentinel
`"z"`; lower-cased title with sentinel `"z"`. -/
def updater_safe_sort_key (x : Record) : SortKey :=
  ( match recGet x "publication_date" with
    | some (.str s) => s
    | _ => "9999"
  , match recGet x "date_source" with
    | some (.str "arxiv") => 0
    | some (.str "estimated") => 1
    | _ => 2
  , match recGet x "authors" with
    | some (.str s) =>
      (match (pySplitWs (pyStrip ((pySplitComma s).headD ""))).getLast? with
       | some t => pyLower t
       | Option.none => "z")
    | _ => "z"
  , match recGet x "title" with
    | some (.str s) => pyLower s
    | _ => "z")

/-- Lines 286-290 of `auto_save`: re-sort the list with
`yaml_updater.safe_sort_key` (descending), then scan the sorted list for
the first index whose record has the current entry's id. -/
def auto_save_relocate (l : List Record) (v : PyVal) : Except PyErr Nat :=
  findIdxById (sortDescBy updater_safe_sort_key l) v

/-- Lines 493-497 of `refresh_ui`: the same scan over the reloaded list,
with `StopIteration` (id no longer present) caught and turned into index 0;
a `KeyError` from a record without id would propagate. -/
def refresh_relocate (l : List Record) (v : PyVal) : Except PyErr Nat :=
  match findIdxById l v with
  | .ok i => .ok i
  | .error .stopIteration => .ok 0
  | .error e => .error e

/-- The generator scan returns the first matching index: a match exists at
it, and no index before it matches. -/
theorem findIdxById_first (v : PyVal) :
    ∀ (l : List Record),
      (∀ e ∈ l, (recGet e "id").isSome = true) →
      (∃ e ∈ l, recGet e "id" = some v) →
      ∃ i, findIdxById l v = .ok i
        ∧ i < l.length
        ∧ (∀ hi : i < l.length, recGet (l.get ⟨i, hi⟩) "id" = some v)
        ∧ ∀ j, j < i → ∀ hj : j < l.length, recGet (l.get ⟨j, hj⟩) "id" ≠ some v
  | [], _, hex => absurd hex (by simp)
  | e :: rest, hids, hex => by
    cases hw : recGet e "id" with
    | none =>
      have hsome := hids e (List.mem_cons_self e rest)
      rw [hw] at hsome
      cases hsome
    | some w =>
      by_cases hwv : w = v
      · refine ⟨0, ?_, Nat.succ_pos _, ?_, ?_⟩
        · unfold findIdxById
          rw [hw]
          show (if w = v then Except.ok 0
            else Except.map (fun x => x + 1) (findIdxById rest v)) = Except.ok 0
          rw [if_pos hwv]
        · intro hi
          show recGet e "id" = some v
          rw [hw, hwv]
        · intro j hj
          exact absurd hj (Nat.not_lt_zero j)
      · obtain ⟨e0, he0mem, he0⟩ := hex
        have he0rest : e0 ∈ rest := by
          rcases List.mem_cons.mp he0mem with h0 | hm
          · exfalso
            apply hwv
            rw [h0, hw] at he0
            exact Option.some.inj he0
          · exact hm
        obtain ⟨i, hfind, hilen, hget, hfirst⟩ :=
          findIdxById_first v rest
            (fun r hr => hids r (List.mem_cons_of_mem _ hr)) ⟨e0, he0rest, he0⟩
        refine ⟨i + 1, ?_, Nat.succ_lt_succ hilen, ?_, ?_⟩
        · unfold findIdxById
          rw [hw]
          show (if w = v then Except.ok 0
            else Except.map (fun x => x + 1) (findIdxById rest v)) = Except.ok (i + 1)
          rw [if_neg hwv, hfind]
          rfl
        · intro hi
          exact hget (Nat.lt_of_succ_lt_succ hi)
        · intro j hj hjlen
          cases j with
          | zero =>
            show recGet e "id" ≠ some v
            rw [hw]
            exact fun hc => hwv (Option.some.inj hc)
          | succ j2 =>
            exact hfirst j2 (Nat.lt_of_succ_lt_succ hj) (Nat.lt_of_succ_lt_succ hjlen)

/-- C6: after `auto_save` re-sorts the list, the new current index tracks
the edited record's identity: for every list all of whose records carry an
id, and every record X in it, the re-location lands on an index of the
sorted list whose record has X's id (never X's old positional index). -/
theorem c6_identity_tracking (l : List Record) (entry : Record) (v : PyVal)
    (hids : ∀ e ∈ l, (recGet e "id").isSome = true)
    (hmem : entry ∈ l) (hid : recGet entry "id" = some v) :
    ∃ i, auto_save_relocate l v = .ok i
      ∧ ∃ hi : i < (sortDescBy updater_safe_sort_key l).length,
          recGet ((sortDescBy updater_safe_sort_key l).get ⟨i, hi⟩) "id" = some v := by
  have hids2 : ∀ e ∈ sortDescBy updater_safe_sort_key l, (recGet e "id").isSome = true :=
    fun e he => hids e (mem_sortDescBy.mp he)
  have hex : ∃ e ∈ sortDescBy updater_safe_sort_key l, recGet e "id" = some v :=
    ⟨entry, mem_sortDescBy.mpr hmem, hid⟩
  obtain ⟨i, hfind, hilen, hget, _⟩ :=
    findIdxById_first v (sortDescBy updater_safe_sort_key l) hids2 hex
  exact ⟨i, hfind, hilen, hget hilen⟩

def recOld : Record := [("id", .str "x1"), ("publication_date", .str "2023-01-01")]

def recNew : Record := [("id", .str "y1"), ("publication_date", .str "2024-06-01")]

/-- Witness for C6: in `[old, new]` the newer record sorts to position 0,
so the old record (the edited one) is re-located at index 1, by id. -/
theorem c6_identity_tracking_witness :
    ∃ i, auto_save_relocate [recOld, recNew] (.str "x1") = .ok i
      ∧ ∃ hi : i < (sortDescBy updater_safe_sort_key [recOld, recNew]).length,
          recGet ((sortDescBy updater_safe_sort_key [recOld, recNew]).get ⟨i, hi⟩) "id"
            = some (.str "x1") :=
  c6_identity_tracking [recOld, recNew] recOld (.str "x1")
    (by decide) (by decide) (by rfl)

/-- C9: when ids are duplicated, both re-location scans are deterministic
and return the first (smallest) matching index of the list they scan:
`findIdxById` (the scan `auto_save` runs over its freshly sorted list)
returns it, `refresh_relocate` returns the very same index, and for any
pre-sort list whose descending sort equals the scanned list, `auto_save`'s
relocation returns it as well. -/
theorem c9_first_match_on_duplicates (l : List Record) (v : PyVal)
    (hids : ∀ e ∈ l, (recGet e "id").isSome = true)
    (hdup : ∃ j k, j < k ∧ ∃ (hj : j < l.length) (hk : k < l.length),
        recGet (l.get ⟨j, hj⟩) "id" = some v ∧ recGet (l.get ⟨k, hk⟩) "id" = some v) :
    ∃ i, findIdxById l v = .ok i
      ∧ refresh_relocate l v = .ok i
      ∧ (∀ l0, sortDescBy updater_safe_sort_key l0 = l → auto_save_relocate l0 v = .ok i)
      ∧ (∀ hi : i < l.length, recGet (l.get ⟨i, hi⟩) "id" = some v)
      ∧ ∀ j, j < i → ∀ hj : j < l.length, recGet (l.get ⟨j, hj⟩) "id" ≠ some v := by
  obtain ⟨j0, k0, _, hj0, hk0, hja, _⟩ := hdup
  obtain ⟨i, hfind, _, hget, hfirst⟩ :=
    findIdxById_first v l hids ⟨l.get ⟨j0, hj0⟩, List.get_mem l j0 hj0, hja⟩
  refine ⟨i, hfind, ?_, ?_, hget, hfirst⟩
  · rw [refresh_relocate, hfind]
  · intro l0 hl0
    rw [auto_save_relocate, hl0, hfind]

def recDupA : Record := [("id", .str "d"), ("title", .str "first")]

def recDupB : Record := [("id", .str "d"), ("title", .str "second")]

/-- Witness for C9: a two-record list with a duplicated id; the scan stops
at index 0. -/
theorem c9_first_match_on_duplicates_witness :
    ∃ i, findIdxById [recDupA, recDupB] (.str "d") = .ok i
      ∧ refresh_relocate [recDupA, recDupB] (.str "d") = .ok i
      ∧ (∀ l0, sortDescBy updater_safe_sort_key l0 = [recDupA, recDupB] →
          auto_save_relocate l0 (.str "d") = .ok i)
      ∧ (∀ hi : i < ([recDupA, recDupB] : List Record).length,
          recGet (([recDupA, recDupB] : List Record).get ⟨i, hi⟩) "id" = some (.str "d"))
      ∧ ∀ j, j < i → ∀ hj : j < ([recDupA, recDupB] : List Record).length,
          recGet (([recDupA, recDupB] : List Record).get ⟨j, hj⟩) "id" ≠ some (.str "d") :=
  c9_first_match_on_duplicates [recDupA, recDupB] (.str "d") (by decide)
    ⟨0, 1, by decide, by decide, by decide, by decide, by decide⟩

/-! ### Claims C7, C8, C10: deleting the current entry and navigation -/

/-- The file-system state of the record's thumbnail when
`delete_current_entry` runs: absent, present and removable, or present
with a failing `unlink()`. -/
inductive ThumbFs : Type where
  | absent : ThumbFs
  | presentOk : ThumbFs
  | presentFail : ThumbFs
deriving DecidableEq, Repr

/-- Observable outcome of the delete handler: the in-memory list, the full
content written to the store (`none` when no write happened), the new
current index (`none` when the list emptied and the editor closes), and
whether the error dialog was shown. -/
structure DeleteOutcome : Type where
  data : List Record
  written : Option (List Record)
  index : Option Nat
  errorShown : Bool
deriving DecidableEq, Repr

/-- Lines 453-477, the Yes branch of the confirmation dialog.  The order of
effects in the `try` block is: unlink the thumbnail if it exists (a failing
unlink raises and jumps to `except` before anything else happened), then
`del self.data[current_index]` (IndexError on an out-of-range index), then
the whole-file `yaml.dump` (`writeOk` abstracts its success), then the
clamp `if current_index >= len(data): current_index = len(data) - 1` and
the close-when-empty check.  The `except` branch shows a critical dialog
and leaves the index unclamped. -/
def delete_current_entry (fs : ThumbFs) (writeOk : Bool) (l : List Record)
    (i : Nat) : DeleteOutcome :=
  if fs = ThumbFs.presentFail then
    ⟨l, Option.none, some i, true⟩
  else if i < l.length then
    if writeOk then
      if (l.eraseIdx i).length ≤ i then
        if l.eraseIdx i = [] then
          ⟨l.eraseIdx i, some (l.eraseIdx i), Option.none, false⟩
        else
          ⟨l.eraseIdx i, some (l.eraseIdx i), some ((l.eraseIdx i).length - 1), false⟩
      else ⟨l.eraseIdx i, some (l.eraseIdx i), some i, false⟩
    else ⟨l.eraseIdx i, Option.none, some i, true⟩
  else ⟨l, Option.none, some i, true⟩

/-- C7: deleting the current record (with the thumbnail not failing and the
write succeeding) removes exactly the record at the current index, rewrites
the whole store with the remaining list, and yields the clamped index
`min(old_index, new_length - 1)` — in particular `length - 2` when deleting
the last record at index `length - 1` — or no index at all ("empty") when
the list empties. -/
theorem c7_delete_semantics (fs : ThumbFs) (l : List Record) (i : Nat)
    (hfs : fs ≠ ThumbFs.presentFail) (hi : i < l.length) :
    (delete_current_entry fs true l i).data = l.take i ++ l.drop (i + 1)
    ∧ (delete_current_entry fs true l i).written
        = some ((delete_current_entry fs true l i).data)
    ∧ (delete_current_entry fs true l i).data.length = l.length - 1
    ∧ ((delete_current_entry fs true l i).data = [] →
        (delete_current_entry fs true l i).index = Option.none)
    ∧ ((delete_current_entry fs true l i).data ≠ [] →
        (delete_current_entry fs true l i).index
          = some (min i ((delete_current_entry fs true l i).data.length - 1)))
    ∧ (i = l.length - 1 → 2 ≤ l.length →
        (delete_current_entry fs true l i).index = some (l.length - 2)) := by
  have hlen : (l.eraseIdx i).length = l.length - 1 := by
    rw [List.length_eraseIdx]
    simp [hi]
  rw [delete_current_entry, if_neg hfs, if_pos hi, if_pos rfl]
  by_cases hge : (l.eraseIdx i).length ≤ i
  · by_cases hemp : l.eraseIdx i = []
    · rw [if_pos hge, if_pos hemp]
      have h0 : (l.eraseIdx i).length = 0 := by rw [hemp]; rfl
      refine ⟨List.eraseIdx_eq_take_drop_succ l i, rfl, hlen, fun _ => rfl, ?_, ?_⟩
      · intro hne
        exact absurd hemp hne
      · intro h1 h2
        exfalso
        omega
    · rw [if_pos hge, if_neg hemp]
      have h0 : 0 < (l.eraseIdx i).length := List.length_pos.mpr hemp
      refine ⟨List.eraseIdx_eq_take_drop_succ l i, rfl, hlen, ?_, ?_, ?_⟩
      · intro h
        exact absurd h hemp
      · intro _
        show some ((l.eraseIdx i).length - 1) = some (min i ((l.eraseIdx i).length - 1))
        have hm : min i ((l.eraseIdx i).length - 1) = (l.eraseIdx i).length - 1 := by omega
        rw [hm]
      · intro h1 h2
        show some ((l.eraseIdx i).length - 1) = some (l.length - 2)
        have hm : (l.eraseIdx i).length - 1 = l.length - 2 := by omega
        rw [hm]
  · rw [if_neg hge]
    refine ⟨List.eraseIdx_eq_take_drop_succ l i, rfl, hlen, ?_, ?_, ?_⟩
    · intro h
      have h2 : l.eraseIdx i = [] := h
      exact absurd (by rw [h2]; exact Nat.zero_le i) hge
    · intro _
      show some i = some (min i ((l.eraseIdx i).length - 1))
      have hm : min i ((l.eraseIdx i).length - 1) = i := by omega
      rw [hm]
    · intro h1 h2
      exfalso
      omega

/-- Witness for C7: deleting the last of two records at index 1 yields the
one-record list and clamped index 0 = length - 2. -/
theorem c7_delete_semantics_witness :
    (delete_current_entry ThumbFs.absent true [recOld, recNew] 1).data
        = ([recOld, recNew] : List Record).take 1 ++ ([recOld, recNew] : List Record).drop 2
    ∧ (delete_current_entry ThumbFs.absent true [recOld, recNew] 1).written
        = some ((delete_current_entry ThumbFs.absent true [recOld, recNew] 1).data)
    ∧ (delete_current_entry ThumbFs.absent true [recOld, recNew] 1).data.length
        = ([recOld, recNew] : List Record).length - 1
    ∧ ((delete_current_entry ThumbFs.absent true [recOld, recNew] 1).data = [] →
        (delete_current_entry ThumbFs.absent true [recOld, recNew] 1).index = Option.none)
    ∧ ((delete_current_entry ThumbFs.absent true [recOld, recNew] 1).data ≠ [] →
        (delete_current_entry ThumbFs.absent true [recOld, recNew] 1).index
          = some (min 1 ((delete_current_entry ThumbFs.absent true [recOld, recNew] 1).data.length - 1)))
    ∧ (1 = ([recOld, recNew] : List Record).length - 1 → 2 ≤ ([recOld, recNew] : List Record).length →
        (delete_current_entry ThumbFs.absent true [recOld, recNew] 1).index
          = some (([recOld, recNew] : List Record).length - 2)) :=
  c7_delete_semantics ThumbFs.absent [recOld, recNew] 1 (by decide) (by decide)

/-- C8, as stated, is false: when the thumbnail exists and its deletion
fails, the exception fires *before* `del self.data[...]` inside the same
`try`, so the record is NOT removed, the store is NOT rewritten, and the
failure IS surfaced to the user as a critical "Failed to save changes"
dialog. -/
theorem c8_counterexample :
    (delete_current_entry ThumbFs.presentFail true [recOld] 0).data = [recOld]
    ∧ (delete_current_entry ThumbFs.presentFail true [recOld] 0).written = Option.none
    ∧ (delete_current_entry ThumbFs.presentFail true [recOld] 0).errorShown = true :=
  ⟨rfl, rfl, rfl⟩

/-- C8 (amended): thumbnail *absence* is silently ignored and never blocks
removal — with the thumbnail absent, the record is removed, the store
rewritten and no error surfaced, with exactly the same outcome as a
successful unlink; but when the thumbnail exists and its unlink raises,
the exception aborts the delete before the record is removed: the list and
the store are left untouched and an error dialog is shown. -/
theorem c8_thumbnail_failure_blocks_delete (l : List Record) (i : Nat)
    (hi : i < l.length) :
    ((delete_current_entry ThumbFs.absent true l i).data = l.eraseIdx i
      ∧ (delete_current_entry ThumbFs.absent true l i).written = some (l.eraseIdx i)
      ∧ (delete_current_entry ThumbFs.absent true l i).errorShown = false)
    ∧ delete_current_entry ThumbFs.absent true l i
        = delete_current_entry ThumbFs.presentOk true l i
    ∧ ((delete_current_entry ThumbFs.presentFail true l i).data = l
      ∧ (delete_current_entry ThumbFs.presentFail true l i).written = Option.none
      ∧ (delete_current_entry ThumbFs.presentFail true l i).errorShown = true) := by
  refine ⟨?_, rfl, rfl, rfl, rfl⟩
  rw [delete_current_entry, if_neg (by decide : ¬ ThumbFs.absent = ThumbFs.presentFail),
    if_pos hi, if_pos rfl]
  by_cases hge : (l.eraseIdx i).length ≤ i
  · by_cases hemp : l.eraseIdx i = []
    · rw [if_pos hge, if_pos hemp]
      exact ⟨rfl, rfl, rfl⟩
    · rw [if_pos hge, if_neg hemp]
      exact ⟨rfl, rfl, rfl⟩
  · rw [if_neg hge]
    exact ⟨rfl, rfl, rfl⟩

/-- Witness for C8 (amended): the concrete one-record list. -/
theorem c8_thumbnail_failure_blocks_delete_witness :
    ((delete_current_entry ThumbFs.absent true [recOld] 0).data
        = ([recOld] : List Record).eraseIdx 0
      ∧ (delete_current_entry ThumbFs.absent true [recOld] 0).written
        = some (([recOld] : List Record).eraseIdx 0)
      ∧ (delete_current_entry ThumbFs.absent true [recOld] 0).errorShown = false)
    ∧ delete_current_entry ThumbFs.absent true [recOld] 0
        = delete_current_entry ThumbFs.presentOk true [recOld] 0
    ∧ ((delete_current_entry ThumbFs.presentFail true [recOld] 0).data = [recOld]
      ∧ (delete_current_entry ThumbFs.presentFail true [recOld] 0).written = Option.none
      ∧ (delete_current_entry ThumbFs.presentFail true [recOld] 0).errorShown = true) :=
  c8_thumbnail_failure_blocks_delete [recOld] 0 (by decide)

/-- Lines 430-434: `prev_entry` decrements only when the index is
positive. -/
def prev_entry (i : Nat) : Nat := if 0 < i then i - 1 else i

/-- Lines 436-440: `next_entry` increments only while strictly below
`len(data) - 1`; the comparison happens on Python ints. -/
def next_entry (n i : Nat) : Nat := if (i : Int) < (n : Int) - 1 then i + 1 else i

/-- Lines 419-428: `go_to_page` parses the page box (`parsed` is the result
of `int(text)`, `none` when that raised `ValueError`), and moves only when
`1 <= page <= len(data)`. -/
def go_to_page (parsed : Option Int) (n i : Nat) : Nat :=
  match parsed with
  | Option.none => i
  | some p => if 1 ≤ p ∧ p ≤ (n : Int) then (p - 1).toNat else i

/-- C10: while the list is non-empty, navigation and deletion keep the
current index in bounds: `prev_entry`, `next_entry` and `go_to_page` map an
in-bounds index to an in-bounds index (with `go_to_page` leaving the
position unchanged on non-integer or out-of-range input), and a completed
deletion that leaves the list non-empty yields an in-bounds index for the
new list. -/
theorem c10_index_stays_in_bounds (n i : Nat) (p : Option Int) (fs : ThumbFs)
    (l : List Record) (hi : i < n) (hil : i < l.length)
    (hfs : fs ≠ ThumbFs.presentFail) :
    prev_entry i < n
    ∧ next_entry n i < n
    ∧ go_to_page p n i < n
    ∧ (p = Option.none → go_to_page p n i = i)
    ∧ (∀ q, p = some q → q < 1 ∨ (n : Int) < q → go_to_page p n i = i)
    ∧ (∀ j, (delete_current_entry fs true l i).index = some j →
        (delete_current_entry fs true l i).data ≠ [] →
        j < (delete_current_entry fs true l i).data.length) := by
  have hlen : (l.eraseIdx i).length = l.length - 1 := by
    rw [List.length_eraseIdx]
    simp [hil]
  refine ⟨?_, ?_, ?_, ?_, ?_, ?_⟩
  · rw [prev_entry]
    split_ifs <;> omega
  · rw [next_entry]
    split_ifs with h <;> omega
  · cases p with
    | none => exact hi
    | some q =>
      show (if 1 ≤ q ∧ q ≤ (n : Int) then (q - 1).toNat else i) < n
      split_ifs with h
      · omega
      · exact hi
  · intro hp
    rw [hp]
    rfl
  · intro q hp hbad
    rw [hp]
    show (if 1 ≤ q ∧ q ≤ (n : Int) then (q - 1).toNat else i) = i
    rw [if_neg (by omega)]
  · intro j hj hne
    rw [delete_current_entry, if_neg hfs, if_pos hil, if_pos rfl] at hj hne ⊢
    by_cases hge : (l.eraseIdx i).length ≤ i
    · by_cases hemp : l.eraseIdx i = []
      · rw [if_pos hge, if_pos hemp] at hj
        cases hj
      · rw [if_pos hge, if_neg hemp] at hj
        rw [if_pos hge, if_neg hemp]
        have h0 : 0 < (l.eraseIdx i).length := List.length_pos.mpr hemp
        have hj2 : j = (l.eraseIdx i).length - 1 := (Option.some.inj hj).symm
        show j < (l.eraseIdx i).length
        omega
    · rw [if_neg hge] at hj
      rw [if_neg hge]
      have hj2 : j = i := (Option.some.inj hj).symm
      show j < (l.eraseIdx i).length
      omega

/-- Witness for C10: a concrete in-bounds state. -/
theorem c10_index_stays_in_bounds_witness :
    prev_entry 1 < 2
    ∧ next_entry 2 1 < 2
    ∧ go_to_page (some 5) 2 1 < 2
    ∧ ((some 5 : Option Int) = Option.none → go_to_page (some 5) 2 1 = 1)
    ∧ (∀ q, (some 5 : Option Int) = some q → q < 1 ∨ (2 : Int) < q →
        go_to_page (some 5) 2 1 = 1)
    ∧ (∀ j, (delete_current_entry ThumbFs.presentOk true [recOld, recNew] 1).index = some j →
        (delete_current_entry ThumbFs.presentOk true [recOld, recNew] 1).data ≠ [] →
        j < (delete_current_entry ThumbFs.presentOk true [recOld, recNew] 1).data.length) :=
  c10_index_stays_in_bounds 2 1 (some 5) ThumbFs.presentOk [recOld, recNew]
    (by decide) (by decide) (by decide)

